import Mathlib

/-!
# Verification of the Solana payout manager core

A shallow embedding of the core logic of `solana_manager.py`
(`SolanaPayoutManager`): recipient-file parsing and aggregation, unit
conversion, the RPC endpoint pool with its retry/rotation loop, batched
mass payments, balance fetching, wallet-secret loading and the
confirmation poller.  External library calls (address validation via
`Pubkey.from_string`, decimal parsing via `Decimal`, the RPC transport,
base-58 decoding) are abstracted as oracle parameters; everything else is
translated statement by statement from the Python source.  Python
`Decimal` values are modelled as exact rationals, Python `int` as `Int`
or `Nat` where the source guarantees non-negativity.
-/

deriving instance DecidableEq for Except

namespace SolanaManager

/-- Python's `str.strip()` whitespace set (ASCII). -/
def isPySpace (c : Char) : Bool :=
  c = ' ' || c = '\t' || c = '\n' || c = '\r' || c = '\x0b' || c = '\x0c'

/-- Python `s.strip()`: drop whitespace from both ends. -/
def pyStrip (s : String) : String :=
  String.mk (((s.toList.dropWhile isPySpace).reverse.dropWhile isPySpace).reverse)

/-- Python `s.lower()` (ASCII case folding, as used on the commitment
names). -/
def pyLower (s : String) : String :=
  String.mk (s.toList.map Char.toLower)

/-- Python `s.startswith("#")`. -/
def startsWithHash (s : String) : Bool :=
  match s.toList with
  | c :: _ => c = '#'
  | [] => false

/-- `LAMPORTS_PER_SOL = 1_000_000_000`, the base-units-per-whole-token
constant of the source. -/
def LAMPORTS_PER_SOL : Nat := 1000000000

/-- The `Recipient` dataclass: a validated address together with an
amount in base units (lamports). -/
structure Recipient where
  address : String
  lamports : Nat
deriving DecidableEq, Repr

/-- The two `ValueError`s that `_sol_to_lamports` can raise. -/
inductive ValueErr where
  /-- `"La cantidad debe ser mayor que cero"` -/
  | nonPositiveAmount
  /-- `"La cantidad es demasiado pequeña (0 lamports)"` -/
  | tooSmallAmount
deriving DecidableEq, Repr

/-- `_sol_to_lamports`: reject non-positive amounts, multiply by
`LAMPORTS_PER_SOL`, truncate toward zero (`ROUND_DOWN`; for the positive
values that reach this point this is the floor), and reject a zero
result.  Raises plain `ValueError` (not `RecipientParseError`). -/
def sol_to_lamports (amount : ℚ) : Except ValueErr Nat :=
  if amount ≤ 0 then .error .nonPositiveAmount
  else
    let lamports := (⌊amount * (LAMPORTS_PER_SOL : ℚ)⌋).toNat
    if lamports ≤ 0 then .error .tooSmallAmount
    else .ok lamports

/-- Characters matched by the separator regex `[\s,;]+` of
`_parse_recipient_line` (ASCII whitespace, comma, semicolon). -/
def isSepChar (c : Char) : Bool :=
  c = ' ' || c = '\t' || c = '\n' || c = '\r' || c = '\x0b' || c = '\x0c' ||
    c = ',' || c = ';'

/-- Helper for `splitTokens`: accumulate the current token (reversed) and
the tokens seen so far. -/
def splitTokensGo : List Char → List Char → List String → List String
  | [], cur, acc =>
      if cur.isEmpty then acc else acc ++ [String.mk cur.reverse]
  | c :: rest, cur, acc =>
      if isSepChar c then
        if cur.isEmpty then splitTokensGo rest [] acc
        else splitTokensGo rest [] (acc ++ [String.mk cur.reverse])
      else splitTokensGo rest (c :: cur) acc

/-- `re.split(r"[\s,;]+", line)` followed by dropping empty tokens. -/
def splitTokens (line : String) : List String :=
  splitTokensGo line.toList [] []

/-- `line.strip()` followed by `line.lstrip("﻿")` as performed by
`read_recipients_from_file` on every raw line. -/
def stripLine (s : String) : String :=
  String.mk ((pyStrip s).toList.dropWhile (fun c => c = '﻿'))

/-- The `RecipientParseError`s raised (and caught line by line) during
recipient parsing, with the data each message carries. -/
inductive LineErr where
  /-- `"La línea {n} está vacía"` -/
  | emptyLine (lineNumber : Nat)
  /-- `"La dirección en la línea {n} es inválida: {address}"` -/
  | invalidAddress (lineNumber : Nat) (address : String)
  /-- `"Cantidad inválida en la línea {n}: {text}"` -/
  | invalidAmount (lineNumber : Nat) (text : String)
  /-- `"La línea {n} no incluye cantidad y no se proporcionó un valor por defecto."` -/
  | missingAmount (lineNumber : Nat)
deriving DecidableEq, Repr

/-- `_parse_recipient_line`.  `validAddr` is the oracle for
`Pubkey.from_string` succeeding; `parseDecimal` the oracle for
`Decimal(text)` (`none` = the constructor raises).  The error sum
distinguishes `RecipientParseError` (left, caught by the caller) from
the `ValueError`s of `_sol_to_lamports` (right, not caught). -/
def parse_recipient_line (validAddr : String → Bool)
    (parseDecimal : String → Option ℚ) (line : String) (lineNumber : Nat)
    (defaultAmount : Option ℚ) : Except (LineErr ⊕ ValueErr) Recipient :=
  match splitTokens line with
  | [] => .error (.inl (.emptyLine lineNumber))
  | address :: rest =>
    if validAddr address then
      let amountE : Except (LineErr ⊕ ValueErr) ℚ :=
        match rest with
        | text :: _ =>
          match parseDecimal text with
          | some q => .ok q
          | none => .error (.inl (.invalidAmount lineNumber text))
        | [] =>
          match defaultAmount with
          | some q => .ok q
          | none => .error (.inl (.missingAmount lineNumber))
      match amountE with
      | .error e => .error e
      | .ok amount =>
        match sol_to_lamports amount with
        | .ok lamports => .ok ⟨address, lamports⟩
        | .error v => .error (.inr v)
    else .error (.inl (.invalidAddress lineNumber address))

/-- A warning collected by `read_recipients_from_file` (the source keeps
them as strings; the constructors carry the data of each message). -/
inductive Warning where
  /-- `str(exc)` of a caught `RecipientParseError`. -/
  | lineWarning (e : LineErr)
  /-- `"La dirección {address} aparece {occurrences} veces; los montos se
  sumaron automáticamente."` -/
  | duplicateAddress (address : String) (occurrences : Nat)
deriving DecidableEq, Repr

/-- The per-line loop of `read_recipients_from_file`: strip, skip blanks
and `#`-comments, parse, turn `RecipientParseError` into a warning.  A
plain `ValueError` from `_sol_to_lamports` is not caught and aborts the
whole loop. -/
def collectRecipientsGo (validAddr : String → Bool)
    (parseDecimal : String → Option ℚ) (defaultAmount : Option ℚ) :
    List String → Nat → List Recipient → List Warning →
    Except ValueErr (List Recipient × List Warning)
  | [], _, recs, ws => .ok (recs, ws)
  | rawLine :: rest, n, recs, ws =>
    let line := stripLine rawLine
    if line = "" || startsWithHash line then
      collectRecipientsGo validAddr parseDecimal defaultAmount rest (n + 1) recs ws
    else
      match parse_recipient_line validAddr parseDecimal line n defaultAmount with
      | .ok r =>
        collectRecipientsGo validAddr parseDecimal defaultAmount rest (n + 1)
          (recs ++ [r]) ws
      | .error (.inl e) =>
        collectRecipientsGo validAddr parseDecimal defaultAmount rest (n + 1)
          recs (ws ++ [.lineWarning e])
      | .error (.inr v) => .error v

/-- In-place update of the `aggregated` dict: add `l` lamports to the
entry whose address is `a`, keeping insertion order (Python dict update
keeps the entry's position). -/
def addLamports : List Recipient → String → Nat → List Recipient
  | [], _, _ => []
  | r :: rest, a, l =>
    (if r.address = a then ⟨r.address, r.lamports + l⟩ else r) :: addLamports rest a l

/-- Increment the value of every entry of the counter dict whose key is
`a`, in place. -/
def bumpAll : List (String × Nat) → String → List (String × Nat)
  | [], _ => []
  | p :: rest, a => (if p.1 = a then (p.1, p.2 + 1) else p) :: bumpAll rest a

/-- `duplicates_counter[addr] = duplicates_counter.get(addr, 0) + 1` with
Python-dict insertion-order semantics: update in place when the key is
present, append `(addr, 1)` otherwise. -/
def bumpCounter (d : List (String × Nat)) (a : String) : List (String × Nat) :=
  if d.any (fun p => p.1 = a) then bumpAll d a else d ++ [(a, 1)]

/-- The aggregation loop of `read_recipients_from_file`: fold the raw
parsed recipients into the `aggregated` dict (summing lamports of
duplicate addresses) and the `duplicates_counter` dict. -/
def aggregateGo : List Recipient → List Recipient → List (String × Nat) →
    List Recipient × List (String × Nat)
  | [], agg, dups => (agg, dups)
  | r :: rest, agg, dups =>
    if agg.any (fun x => x.address = r.address) then
      aggregateGo rest (addLamports agg r.address r.lamports) (bumpCounter dups r.address)
    else
      aggregateGo rest (agg ++ [⟨r.address, r.lamports⟩]) dups

/-- Aggregation over the raw parsed list, starting from empty dicts. -/
def aggregateRecipients (rs : List Recipient) : List Recipient × List (String × Nat) :=
  aggregateGo rs [] []

/-- The duplicate warnings emitted after aggregation: one per counter
entry, reporting `count + 1` total occurrences. -/
def duplicateWarnings (dups : List (String × Nat)) : List Warning :=
  dups.map (fun p => .duplicateAddress p.1 (p.2 + 1))

/-- Terminal outcomes of `read_recipients_from_file` other than success. -/
inductive RecipientsErr where
  /-- An uncaught `ValueError` from `_sol_to_lamports` escaping the
  per-line loop. -/
  | valueError (v : ValueErr)
  /-- `RecipientParseError("No se pudieron cargar destinatarios válidos. …")` -/
  | noValidRecipients
  /-- `RecipientParseError("El archivo de wallets está vacío o todas las
  líneas son comentarios.")` -/
  | emptyFile
deriving DecidableEq, Repr

/-- `read_recipients_from_file`, given the file's physical lines (the
path handling and file read are I/O).  On success returns the aggregated
recipients together with the warnings the call stores in
`last_recipient_warnings`. -/
def read_recipients_from_file (validAddr : String → Bool)
    (parseDecimal : String → Option ℚ) (lines : List String)
    (defaultAmount : Option ℚ) :
    Except RecipientsErr (List Recipient × List Warning) :=
  match collectRecipientsGo validAddr parseDecimal defaultAmount lines 1 [] [] with
  | .error v => .error (.valueError v)
  | .ok (recipientsRaw, lineWarnings) =>
    let (aggregated, dups) := aggregateRecipients recipientsRaw
    let warnings := lineWarnings ++ duplicateWarnings dups
    if aggregated.isEmpty then
      if warnings.isEmpty then .error .emptyFile
      else .error .noValidRecipients
    else .ok (aggregated, warnings)

/-- `sum_lamports`. -/
def sum_lamports (recipients : List Recipient) : Nat :=
  (recipients.map (fun r => r.lamports)).sum

/-- First-seen de-duplication (the `order`/`unique`/`seen` loop pattern
used by `fetch_balances`), accumulator form. -/
def dedupFirstGo : List String → List String → List String
  | [], acc => acc
  | x :: rest, acc =>
    if acc.any (fun y => y = x) then dedupFirstGo rest acc
    else dedupFirstGo rest (acc ++ [x])

/-- First-seen de-duplication of a list of strings. -/
def dedupFirst (xs : List String) : List String :=
  dedupFirstGo xs []

/-- Number of parsed lines whose address is `a`. -/
def countAddr (a : String) (rs : List Recipient) : Nat :=
  (rs.filter (fun r => r.address = a)).length

/-- Total lamports of the parsed lines whose address is `a`. -/
def sumAddr (a : String) (rs : List Recipient) : Nat :=
  sum_lamports (rs.filter (fun r => r.address = a))

/-- Recognises the duplicate warning for address `a`. -/
def isDupWarningFor (a : String) : Warning → Bool
  | .duplicateAddress b _ => b = a
  | _ => false

/-- Address-validity oracle for the below-one-base-unit scenario:
`Pubkey.from_string` succeeds exactly on `WalletUno`. -/
def demoValidAddr (a : String) : Bool := a = "WalletUno"

/-- Decimal-parsing oracle for the below-one-base-unit scenario:
`Decimal("0.0000000001")` is exactly `1 / 10^10`. -/
def demoParseDecimal (t : String) : Option ℚ :=
  if t = "0.0000000001" then some (mkRat 1 10000000000) else none

/-! ## Endpoint pool configuration (`set_rpc_pool`) -/

/-- The mutable manager attributes touched by `set_rpc_pool` (the
`Client` object is represented by the endpoint/timeout it was built
with). -/
structure ManagerState where
  timeout : ℚ
  maxRetriesPerEndpoint : Int
  retryBackoffSeconds : ℚ
  rpcEndpoints : List String
  currentEndpointIndex : Nat
  endpoint : String
  clientEndpoint : String
  clientTimeout : ℚ
deriving DecidableEq, Repr

/-- The `ValueError`s raised by `set_rpc_pool`. -/
inductive ConfigError where
  /-- `"Se necesita al menos un endpoint RPC válido"` -/
  | emptyPool
  /-- `"max_retries debe ser al menos 1"` -/
  | badMaxRetries
  /-- `"retry_backoff no puede ser negativo"` -/
  | badRetryBackoff
deriving DecidableEq, Repr

/-- The trim/skip-empty/de-duplicate loop at the top of `set_rpc_pool`
(the `seen` set always holds exactly the members of `unique`). -/
def cleanEndpointsGo : List String → List String → List String
  | [], acc => acc
  | e :: rest, acc =>
    let cleaned := pyStrip e
    if cleaned = "" then cleanEndpointsGo rest acc
    else if acc.any (fun y => y = cleaned) then cleanEndpointsGo rest acc
    else cleanEndpointsGo rest (acc ++ [cleaned])

/-- `set_rpc_pool`.  Python mutates `self` in place and raises, so the
model returns the (possibly partially updated) state together with the
raised error, mirroring the statement order of the source: the
`max_retries` assignment happens before `retry_backoff` is validated. -/
def set_rpc_pool (st : ManagerState) (endpoints : List String)
    (max_retries : Option Int) (retry_backoff : Option ℚ)
    (timeout : Option ℚ) : ManagerState × Option ConfigError :=
  match cleanEndpointsGo endpoints [] with
  | [] => (st, some .emptyPool)
  | u :: us =>
    if (match max_retries with | some m => decide (m < 1) | none => false) then
      (st, some .badMaxRetries)
    else
      let st1 := match max_retries with
        | some m => { st with maxRetriesPerEndpoint := m }
        | none => st
      if (match retry_backoff with | some rb => decide (rb < 0) | none => false) then
        (st1, some .badRetryBackoff)
      else
        let st2 := match retry_backoff with
          | some rb => { st1 with retryBackoffSeconds := rb }
          | none => st1
        let st3 := match timeout with
          | some t => { st2 with timeout := t }
          | none => st2
        ({ st3 with
            rpcEndpoints := u :: us
            currentEndpointIndex := 0
            endpoint := u
            clientEndpoint := u
            clientTimeout := st3.timeout }, none)

/-- A concrete manager state as left by the constructor with the default
devnet endpoint (`max_retries_per_endpoint = 3`,
`retry_backoff_seconds = 0.5`, `timeout = 10`). -/
def demoState : ManagerState :=
  { timeout := mkRat 10 1
    maxRetriesPerEndpoint := 3
    retryBackoffSeconds := mkRat 1 2
    rpcEndpoints := ["https://api.devnet.solana.com"]
    currentEndpointIndex := 0
    endpoint := "https://api.devnet.solana.com"
    clientEndpoint := "https://api.devnet.solana.com"
    clientTimeout := mkRat 10 1 }

/-! ## The `_perform` retry loop -/

/-- One failed attempt of the `_perform` loop: the endpoint index the
attempt ran against and the back-off slept after its failure. -/
structure AttemptRec where
  endpointIndex : Nat
  sleepSeconds : ℚ
deriving DecidableEq, Repr

/-- `_rotate_endpoint` acting on the active index: advance modulo the
pool size, a no-op for pools of at most one endpoint. -/
def rotate_endpoint (n idx : Nat) : Nat :=
  if n ≤ 1 then idx else (idx + 1) % n

/-- The `while attempts < max_attempts` body of `_perform`.  `f k` is the
outcome of the `k`-th call of `func(self.client)` (0-based); `n` the pool
size, `maxRetries` = `max_retries_per_endpoint`, `backoff` =
`retry_backoff_seconds`.  `fuel` equals `max_attempts - attempts`.  The
log records every failed attempt; the final error carries `last_error`
(`none` when no attempt ever ran). -/
def performGo (f : Nat → Except ε α) (n maxRetries : Nat) (backoff : ℚ) :
    Nat → Nat → Nat → Option ε → List AttemptRec →
    List AttemptRec × Except (Option ε) α
  | 0, _, _, lastError, log => (log, .error lastError)
  | fuel + 1, attempts, idx, lastError, log =>
    match f attempts with
    | .ok v => (log, .ok v)
    | .error e =>
      let attempts' := attempts + 1
      let sleep := backoff * ((min attempts' 4 : Nat) : ℚ)
      let idx' := if 1 < n ∧ attempts' % maxRetries = 0
        then rotate_endpoint n idx else idx
      performGo f n maxRetries backoff fuel attempts' idx' (some e)
        (log ++ [⟨idx, sleep⟩])

/-- `_perform`: budget of `len(rpc_endpoints) * max_retries_per_endpoint`
attempts starting at attempt counter 0 and the currently active endpoint
index (0 after `set_rpc_pool`). -/
def perform (f : Nat → Except ε α) (n maxRetries : Nat) (backoff : ℚ) :
    List AttemptRec × Except (Option ε) α :=
  performGo f n maxRetries backoff (n * maxRetries) 0 0 none []

/-! ## Confirmation polling (`_await_confirmation`) -/

/-- One `get_signature_statuses` entry: `err`, `confirmation_status` and
`confirmations`, each optional. -/
structure TxStatus where
  err : Option String
  confirmation_status : Option String
  confirmations : Option Int
deriving DecidableEq, Repr

/-- The outcome of one iteration of the `_await_confirmation` poll loop. -/
inductive PollStep where
  /-- `status is None`, or no terminal condition: sleep 0.8 s and poll again. -/
  | keepPolling
  /-- `status.err is not None`: raise immediately. -/
  | txFailed (reason : String)
  /-- The wait returns successfully. -/
  | confirmedOk
deriving DecidableEq, Repr

/-- The named-level success test of `_await_confirmation`:
`str(confirmation_status).lower() in {"confirmed", "finalized"}`. -/
def namedLevelOk (confirmation_status : Option String) : Bool :=
  match confirmation_status with
  | some cs => pyLower cs = "confirmed" || pyLower cs = "finalized"
  | none => false

/-- The fallback success test of `_await_confirmation`:
`confirmations is not None and confirmations > 0`. -/
def confirmationsPositive (confirmations : Option Int) : Bool :=
  match confirmations with
  | some c => 0 < c
  | none => false

/-- One iteration of the `_await_confirmation` poll loop, deciding on the
status returned for the signature.  `commitment` is the commitment the
caller passed to `_await_confirmation` (the parameter is kept to mirror
the Python signature). -/
def await_confirmation_step (commitment : String) (status : Option TxStatus) :
    PollStep :=
  match status with
  | none => .keepPolling
  | some s =>
    match s.err with
    | some reason => .txFailed reason
    | none =>
      if namedLevelOk s.confirmation_status then .confirmedOk
      else if confirmationsPositive s.confirmations then .confirmedOk
      else .keepPolling

/-- Modelled from the spec: rank of a named commitment level, for the
spec's requirement that the reported level be *at or above the requested
commitment* ("confirmed" below "finalized"). -/
def commitmentRank (c : String) : Nat :=
  if pyLower c = "finalized" then 2
  else if pyLower c = "confirmed" then 1
  else 0

/-- Modelled from the spec: `statusLevel` is at or above the requested
commitment by name. -/
def specLevelMeets (statusLevel requested : String) : Bool :=
  commitmentRank requested ≤ commitmentRank statusLevel

/-! ## Wallet loading -/

/-- The errors of the wallet-loading path that depend on the decoded
secret. -/
inductive WalletErr where
  /-- `"La clave secreta debe tener 32 bytes (seed) o 64 bytes (full
  secret key)."` -/
  | badSecretLength
  /-- `"No se pudo interpretar la clave secreta en {path}"` (base-58
  decoding raised). -/
  | base58DecodeFailed
deriving DecidableEq, Repr

/-- How `_keypair_from_bytes` builds the keypair. -/
inductive KeypairKind where
  /-- 64 bytes: `Keypair.from_bytes`. -/
  | fromFullSecretKey
  /-- 32 bytes: `Keypair.from_seed`. -/
  | fromSeed
deriving DecidableEq, Repr

/-- `_keypair_from_bytes` (the byte values themselves only matter to the
external crypto library; the length dispatch is the manager's logic). -/
def keypair_from_bytes (secret_bytes : List Nat) : Except WalletErr KeypairKind :=
  if secret_bytes.length = 64 then .ok .fromFullSecretKey
  else if secret_bytes.length = 32 then .ok .fromSeed
  else .error .badSecretLength

/-- The decoded form of a non-empty wallet file, after the
`json.loads` probe of `load_wallet_from_file`: either a JSON array of
byte values, or raw text together with the result of `base58.b58decode`
(`none` = the decoder raised `ValueError`). -/
inductive SecretInput where
  | jsonList (values : List Nat)
  | rawText (b58Decoded : Option (List Nat))
deriving DecidableEq, Repr

/-- The format dispatch of `load_wallet_from_file` on a non-empty,
existing file: a JSON list goes through `bytes(...)` straight to
`_keypair_from_bytes`; anything else is base-58-decoded (failure =
`WalletLoadError`) and then passed to `_keypair_from_bytes`. -/
def load_wallet_from_file (input : SecretInput) : Except WalletErr KeypairKind :=
  match input with
  | .jsonList values => keypair_from_bytes values
  | .rawText none => .error .base58DecodeFailed
  | .rawText (some secret_bytes) => keypair_from_bytes secret_bytes

/-! ## Chunking, mass payments and balance fetching -/

/-- Fuel-driven helper for `chunkList`; the fuel starts at the length of
the list, which bounds the number of slices when `size ≥ 1`. -/
def chunkListGo : Nat → List α → Nat → List (List α)
  | _, [], _ => []
  | 0, _ :: _, _ => []
  | fuel + 1, x :: rest, size =>
    if size = 0 then []
    else (x :: rest).take size :: chunkListGo fuel ((x :: rest).drop size) size

/-- `_chunk`: consecutive slices `items[i : i + size]`.  With `size = 0`
Python's `range` raises; every caller guarantees `size ≥ 1`. -/
def chunkList (items : List α) (size : Nat) : List (List α) :=
  chunkListGo items.length items size

/-- The remote interactions of one chunk iteration of
`send_mass_payments`: the `get_latest_blockhash` outcome (via
`_perform`, so failure is the exhausted-retries error carrying the last
underlying error), the `send_transaction` outcome (a signature on
success), and the `_await_confirmation` outcome for a given signature
(`some reason` = the confirmation raised). -/
structure ChunkEnv (ε : Type) where
  blockhash : Except ε Nat
  submit : Except ε String
  confirm : String → Option String

/-- The exceptions `send_mass_payments` can raise. -/
inductive MassPayError (ε : Type) where
  /-- `ValueError("max_per_transaction debe ser al menos 1")` -/
  | invalidBatchSize
  /-- `WalletNotLoadedError` -/
  | walletNotLoaded
  /-- `RuntimeError` from `_perform` after exhausting the retry budget,
  carrying the last underlying error. -/
  | retryExhausted (lastError : ε)
  /-- Error raised by `_await_confirmation` for the submitted signature
  (transaction failure or confirmation timeout). -/
  | confirmFailed (signature : String) (reason : String)
deriving DecidableEq, Repr

/-- The full outcome of one chunk: fetch the blockhash, submit, confirm;
the first failure becomes the raised error. -/
def chunkRun (ce : ChunkEnv ε) : Except (MassPayError ε) String :=
  match ce.blockhash with
  | .error e => .error (.retryExhausted e)
  | .ok _ =>
    match ce.submit with
    | .error e => .error (.retryExhausted e)
    | .ok signature =>
      match ce.confirm signature with
      | some reason => .error (.confirmFailed signature reason)
      | none => .ok signature

/-- The `for chunk in self._chunk(recipients, batch_size)` loop of
`send_mass_payments`.  `env i` gives the remote outcomes of chunk `i`.
Besides the Python return value (the signature list, or the raised
error) the model returns the trace of transactions built so far: the
chunk of each and the blockhash it was built against — a chunk enters
the trace once its blockhash has been fetched. -/
def sendChunks (env : Nat → ChunkEnv ε) :
    List (List Recipient) → Nat → List String →
    List (List Recipient × Nat) →
    Except (MassPayError ε) (List String) × List (List Recipient × Nat)
  | [], _, signatures, trace => (.ok signatures, trace)
  | chunk :: rest, i, signatures, trace =>
    match (env i).blockhash with
    | .error e => (.error (.retryExhausted e), trace)
    | .ok bh =>
      let trace' := trace ++ [(chunk, bh)]
      match (env i).submit with
      | .error e => (.error (.retryExhausted e), trace')
      | .ok signature =>
        match (env i).confirm signature with
        | some reason => (.error (.confirmFailed signature reason), trace')
        | none => sendChunks env rest (i + 1) (signatures ++ [signature]) trace'

/-- `batch_size = max_per_transaction or self.default_max_recipients_per_tx`:
Python `or` falls back on the default when the argument is `None` *or*
`0` (falsy). -/
def effectiveBatchSize (max_per_transaction : Option Int)
    (defaultMaxRecipientsPerTx : Nat) : Int :=
  match max_per_transaction with
  | none => defaultMaxRecipientsPerTx
  | some v => if v = 0 then defaultMaxRecipientsPerTx else v

/-- `send_mass_payments`: validate the batch size, require the wallet,
then submit one signed transaction per chunk, sequentially. -/
def send_mass_payments (walletLoaded : Bool)
    (defaultMaxRecipientsPerTx : Nat) (env : Nat → ChunkEnv ε)
    (recipients : List Recipient) (max_per_transaction : Option Int) :
    Except (MassPayError ε) (List String) × List (List Recipient × Nat) :=
  let batch_size := effectiveBatchSize max_per_transaction defaultMaxRecipientsPerTx
  if batch_size < 1 then (.error .invalidBatchSize, [])
  else if ¬walletLoaded then (.error .walletNotLoaded, [])
  else sendChunks env (chunkList recipients batch_size.toNat) 0 [] []

/-- A three-chunk run in which chunk 0 submits and confirms as `s1`,
chunk 1 submits as `s2` but fails confirmation with reason `boom`, and
chunk 2 would succeed as `s3`. -/
def demoEnvA : Nat → ChunkEnv String := fun i =>
  if i = 0 then ⟨Except.ok 10, Except.ok "s1", fun _ => none⟩
  else if i = 1 then ⟨Except.ok 11, Except.ok "s2", fun _ => some "boom"⟩
  else ⟨Except.ok 12, Except.ok "s3", fun _ => none⟩

/-- Same run as `demoEnvA` except that chunk 0's confirmed signature is
`x9` instead of `s1`. -/
def demoEnvB : Nat → ChunkEnv String := fun i =>
  if i = 0 then ⟨Except.ok 10, Except.ok "x9", fun _ => none⟩
  else if i = 1 then ⟨Except.ok 11, Except.ok "s2", fun _ => some "boom"⟩
  else ⟨Except.ok 12, Except.ok "s3", fun _ => none⟩

/-- `Decimal(account.lamports) / Decimal(LAMPORTS_PER_SOL)` for a found
account, `Decimal("0")` for a missing one (`account is None`). -/
def balValue (ledger : String → Option Nat) (a : String) : ℚ :=
  match ledger a with
  | none => 0
  | some lamports => (lamports : ℚ) / (LAMPORTS_PER_SOL : ℚ)

/-- Python dict assignment `d[k] = v`: replace in place when the key
exists, append otherwise. -/
def dictSet : List (String × ℚ) → String → ℚ → List (String × ℚ)
  | [], k, v => [(k, v)]
  | p :: rest, k, v => if p.1 = k then (k, v) :: rest else p :: dictSet rest k v

/-- Python `d.get(k)` on the assoc-list dict model. -/
def dictGet? (d : List (String × ℚ)) (k : String) : Option ℚ :=
  (d.find? (fun p => p.1 = k)).map (fun p => p.2)

/-- `fetch_balances`, given the ledger as an oracle from address to
`account.lamports` (`none` = `account is None` in the RPC reply).
Returns the result dict together with the list of
`get_multiple_accounts` pages issued. -/
def fetch_balances (ledger : String → Option Nat) (accountsQueryChunk : Nat)
    (addresses : List String) : List (String × ℚ) × List (List String) :=
  if addresses.isEmpty then ([], [])
  else
    let order := addresses
    let unique := dedupFirst addresses
    let pages := chunkList unique accountsQueryChunk
    let balancesUnique := pages.foldl
      (fun acc page =>
        page.foldl (fun acc2 a => dictSet acc2 a (balValue ledger a)) acc) []
    let result := order.foldl
      (fun acc a => dictSet acc a ((dictGet? balancesUnique a).getD 0)) []
    (result, pages)

/-! ## Lemmas about aggregation -/

theorem addLamports_filter_eq (agg : List Recipient) (a : String) (l : Nat) :
    (addLamports agg a l).filter (fun r => r.address = a)
      = (agg.filter (fun r => r.address = a)).map
          (fun r => ⟨r.address, r.lamports + l⟩) := by
  induction agg with
  | nil => rfl
  | cons x rest ih =>
    by_cases hx : x.address = a <;>
      simp [addLamports, List.filter_cons, hx, ih]

theorem addLamports_filter_ne (agg : List Recipient) (a b : String) (l : Nat)
    (hab : b ≠ a) :
    (addLamports agg b l).filter (fun r => r.address = a)
      = agg.filter (fun r => r.address = a) := by
  have hba : ¬a = b := fun h => hab h.symm
  induction agg with
  | nil => rfl
  | cons x rest ih =>
    by_cases hxa : x.address = a
    · have hxb : ¬x.address = b := by
        rw [hxa]; exact hba
      simp [addLamports, List.filter_cons, hxa, hxb, hba, hab, ih]
    · by_cases hxb : x.address = b <;>
        simp [addLamports, List.filter_cons, hxa, hxb, hba, hab, ih]

theorem addLamports_map_address (agg : List Recipient) (a : String) (l : Nat) :
    (addLamports agg a l).map (fun r => r.address)
      = agg.map (fun r => r.address) := by
  induction agg with
  | nil => rfl
  | cons x rest ih =>
    by_cases hx : x.address = a <;> simp [addLamports, hx, ih]

theorem addLamports_any (agg : List Recipient) (a b : String) (l : Nat) :
    (addLamports agg b l).any (fun r => r.address = a)
      = agg.any (fun r => r.address = a) := by
  induction agg with
  | nil => rfl
  | cons x rest ih =>
    by_cases hx : x.address = b <;> simp [addLamports, hx, ih]

theorem bumpAll_filter_eq (d : List (String × Nat)) (a : String) :
    (bumpAll d a).filter (fun p => p.1 = a)
      = (d.filter (fun p => p.1 = a)).map (fun p => (p.1, p.2 + 1)) := by
  induction d with
  | nil => rfl
  | cons q rest ih =>
    by_cases hq : q.1 = a <;> simp [bumpAll, List.filter_cons, hq, ih]

theorem bumpAll_filter_ne (d : List (String × Nat)) (a b : String) (hab : b ≠ a) :
    (bumpAll d b).filter (fun p => p.1 = a)
      = d.filter (fun p => p.1 = a) := by
  have hba : ¬a = b := fun h => hab h.symm
  induction d with
  | nil => rfl
  | cons q rest ih =>
    by_cases hqa : q.1 = a
    · have hqb : ¬q.1 = b := by rw [hqa]; exact hba
      simp [bumpAll, List.filter_cons, hqa, hqb, hba, hab, ih]
    · by_cases hqb : q.1 = b <;>
        simp [bumpAll, List.filter_cons, hqa, hqb, hba, hab, ih]

theorem bumpAll_any (d : List (String × Nat)) (a b : String) :
    (bumpAll d b).any (fun p => p.1 = a) = d.any (fun p => p.1 = a) := by
  induction d with
  | nil => rfl
  | cons q rest ih =>
    by_cases hq : q.1 = b <;> simp [bumpAll, hq, ih]

theorem filter_nil_of_any_false {α : Type} (p : α → Bool) (l : List α)
    (h : l.any p = false) : l.filter p = [] := by
  induction l with
  | nil => rfl
  | cons x rest ih =>
    simp only [List.any_cons, Bool.or_eq_false_iff] at h
    simp [List.filter_cons, h.1, ih h.2]

theorem bumpCounter_filter_eq (d : List (String × Nat)) (a : String) :
    (bumpCounter d a).filter (fun p => p.1 = a)
      = if d.any (fun p => p.1 = a) then
          (d.filter (fun p => p.1 = a)).map (fun p => (p.1, p.2 + 1))
        else [(a, 1)] := by
  by_cases hd : d.any (fun p => p.1 = a)
  · simp [bumpCounter, hd, bumpAll_filter_eq]
  · simp only [Bool.not_eq_true] at hd
    simp [bumpCounter, hd, List.filter_append,
      filter_nil_of_any_false _ _ hd]

theorem bumpCounter_filter_ne (d : List (String × Nat)) (a b : String)
    (hab : b ≠ a) :
    (bumpCounter d b).filter (fun p => p.1 = a)
      = d.filter (fun p => p.1 = a) := by
  by_cases hd : d.any (fun p => p.1 = b)
  · simp [bumpCounter, hd, bumpAll_filter_ne d a b hab]
  · simp only [Bool.not_eq_true] at hd
    simp [bumpCounter, hd, List.filter_append, hab]

theorem bumpCounter_any_self (d : List (String × Nat)) (a : String) :
    (bumpCounter d a).any (fun p => p.1 = a) = true := by
  by_cases hd : d.any (fun p => p.1 = a)
  · simp [bumpCounter, hd, bumpAll_any]
  · simp only [Bool.not_eq_true] at hd
    simp [bumpCounter, hd]

theorem bumpCounter_any_ne (d : List (String × Nat)) (a b : String)
    (hab : b ≠ a) :
    (bumpCounter d b).any (fun p => p.1 = a) = d.any (fun p => p.1 = a) := by
  by_cases hd : d.any (fun p => p.1 = b)
  · simp [bumpCounter, hd, bumpAll_any]
  · simp only [Bool.not_eq_true] at hd
    simp [bumpCounter, hd, hab]

theorem bumpAll_mem_keys (d : List (String × Nat)) (b : String)
    (q : String × Nat) (hq : q ∈ bumpAll d b) :
    q.1 ∈ d.map (fun p => p.1) := by
  induction d with
  | nil => simp [bumpAll] at hq
  | cons x rest ih =>
    simp only [bumpAll, List.mem_cons] at hq
    rcases hq with rfl | hq
    · by_cases hx : x.1 = b <;> simp [hx]
    · simp only [List.map_cons, List.mem_cons]
      exact Or.inr (ih hq)

theorem bumpCounter_mem_keys (d : List (String × Nat)) (b : String)
    (q : String × Nat) (hq : q ∈ bumpCounter d b) :
    q.1 ∈ d.map (fun p => p.1) ∨ q.1 = b := by
  by_cases hd : d.any (fun p => p.1 = b)
  · rw [bumpCounter, if_pos hd] at hq
    exact Or.inl (bumpAll_mem_keys d b q hq)
  · rw [bumpCounter, if_neg hd] at hq
    rcases List.mem_append.mp hq with h | h
    · exact Or.inl (List.mem_map.mpr ⟨q, h, rfl⟩)
    · simp only [List.mem_singleton] at h
      exact Or.inr (by rw [h])

theorem countAddr_cons_eq (a : String) (r : Recipient) (rest : List Recipient)
    (h : r.address = a) : countAddr a (r :: rest) = countAddr a rest + 1 := by
  simp [countAddr, List.filter_cons, h]

theorem countAddr_cons_ne (a : String) (r : Recipient) (rest : List Recipient)
    (h : ¬r.address = a) : countAddr a (r :: rest) = countAddr a rest := by
  simp [countAddr, List.filter_cons, h]

theorem sumAddr_cons_eq (a : String) (r : Recipient) (rest : List Recipient)
    (h : r.address = a) : sumAddr a (r :: rest) = r.lamports + sumAddr a rest := by
  simp [sumAddr, sum_lamports, List.filter_cons, h]

theorem sumAddr_cons_ne (a : String) (r : Recipient) (rest : List Recipient)
    (h : ¬r.address = a) : sumAddr a (r :: rest) = sumAddr a rest := by
  simp [sumAddr, sum_lamports, List.filter_cons, h]

theorem aggregateGo_filter_addr (a : String) (rest : List Recipient) :
    ∀ (agg : List Recipient) (dups : List (String × Nat)),
    (aggregateGo rest agg dups).1.filter (fun r => r.address = a)
      = (agg.filter (fun r => r.address = a)).map
          (fun r => ⟨r.address, r.lamports + sumAddr a rest⟩)
        ++ (if agg.any (fun r => r.address = a) = false ∧ 1 ≤ countAddr a rest
            then [⟨a, sumAddr a rest⟩] else []) := by
  induction rest with
  | nil =>
    intro agg dups
    simp [aggregateGo, countAddr, sumAddr, sum_lamports]
  | cons r rest ih =>
    intro agg dups
    by_cases hin : agg.any (fun x => x.address = r.address)
    · rw [aggregateGo, if_pos hin]
      rw [ih]
      by_cases hra : r.address = a
      · subst hra
        rw [addLamports_filter_eq, addLamports_any,
          countAddr_cons_eq _ _ _ rfl, sumAddr_cons_eq _ _ _ rfl]
        simp [hin, List.map_map, Function.comp]
        intro x _ _
        omega
      · rw [addLamports_filter_ne _ _ _ _ (fun h => hra h),
          addLamports_any, countAddr_cons_ne _ _ _ hra,
          sumAddr_cons_ne _ _ _ hra]
    · rw [aggregateGo, if_neg hin]
      rw [ih]
      by_cases hra : r.address = a
      · subst hra
        have hany : (agg.any fun x => decide (x.address = r.address)) = false := by
          simpa using hin
        have hfil : agg.filter (fun x => x.address = r.address) = [] :=
          filter_nil_of_any_false _ _ hany
        have hall : ∀ x ∈ agg, ¬x.address = r.address := by
          simpa using hany
        rw [countAddr_cons_eq _ _ _ rfl, sumAddr_cons_eq _ _ _ rfl]
        simp [List.filter_append, List.any_append, hfil]
        rw [if_pos hall]
      · rw [countAddr_cons_ne _ _ _ hra, sumAddr_cons_ne _ _ _ hra]
        simp [List.filter_append, List.any_append, hra]

theorem dups_keys_absent (a : String) (agg : List Recipient)
    (dups : List (String × Nat))
    (hsub : ∀ p ∈ dups, p.1 ∈ agg.map (fun r => r.address))
    (hany : (agg.any fun r => decide (r.address = a)) = false) :
    dups.filter (fun p => p.1 = a) = []
      ∧ (dups.any fun p => decide (p.1 = a)) = false := by
  have hall : ∀ r ∈ agg, ¬r.address = a := by simpa using hany
  have hkeys : ∀ p ∈ dups, ¬(p.1 = a) := by
    intro p hp hpa
    rcases List.mem_map.mp (hsub p hp) with ⟨r, hr, hra⟩
    exact hall r hr (hra.trans hpa)
  constructor
  · exact List.filter_eq_nil_iff.mpr (by intro p hp; simpa using hkeys p hp)
  · exact List.any_eq_false.mpr (by intro p hp; simpa using hkeys p hp)

theorem aggregateGo_filter_dups (a : String) (rest : List Recipient) :
    ∀ (agg : List Recipient) (dups : List (String × Nat)),
    (∀ p ∈ dups, p.1 ∈ agg.map (fun r => r.address)) →
    (aggregateGo rest agg dups).2.filter (fun p => p.1 = a)
      = if agg.any (fun r => r.address = a) then
          (dups.filter (fun p => p.1 = a)).map
              (fun p => (p.1, p.2 + countAddr a rest))
            ++ (if dups.any (fun p => p.1 = a) = false ∧ 1 ≤ countAddr a rest
                then [(a, countAddr a rest)] else [])
        else
          (if 2 ≤ countAddr a rest then [(a, countAddr a rest - 1)] else []) := by
  induction rest with
  | nil =>
    intro agg dups hsub
    by_cases hany : agg.any (fun r => r.address = a)
    · simp [aggregateGo, countAddr, hany]
    · have h := dups_keys_absent a agg dups hsub (by simpa using hany)
      simp [aggregateGo, countAddr, hany, h.1]
  | cons r rest ih =>
    intro agg dups hsub
    by_cases hin : agg.any (fun x => x.address = r.address)
    · rw [aggregateGo, if_pos hin]
      have haddr : r.address ∈ agg.map (fun x => x.address) := by
        rcases List.any_eq_true.mp hin with ⟨x, hx, hxa⟩
        exact List.mem_map.mpr ⟨x, hx, of_decide_eq_true hxa⟩
      have hsub' : ∀ p ∈ bumpCounter dups r.address,
          p.1 ∈ (addLamports agg r.address r.lamports).map (fun x => x.address) := by
        intro p hp
        rw [addLamports_map_address]
        rcases bumpCounter_mem_keys dups r.address p hp with h | h
        · rcases List.mem_map.mp h with ⟨q, hq, hq1⟩
          exact hq1 ▸ hsub q hq
        · exact h ▸ haddr
      rw [ih _ _ hsub']
      by_cases hra : r.address = a
      · subst hra
        rw [addLamports_any]
        rw [if_pos hin, if_pos hin]
        rw [bumpCounter_filter_eq, bumpCounter_any_self,
          countAddr_cons_eq _ _ _ rfl]
        by_cases hdany : dups.any (fun p => p.1 = r.address)
        · simp only [hdany, if_pos]
          simp [List.map_map, Function.comp, Nat.add_assoc]
          intro x y _ _
          omega
        · have hd0 : (dups.any fun p => decide (p.1 = r.address)) = false := by
            cases h : dups.any (fun p => decide (p.1 = r.address)) with
            | false => rfl
            | true => exact absurd h hdany
          have hdnil : dups.filter (fun p => p.1 = r.address) = [] :=
            filter_nil_of_any_false _ _ hd0
          simp [hd0, hdnil, Nat.add_comm]
      · rw [addLamports_any]
        rw [bumpCounter_filter_ne _ _ _ (fun h => hra h),
          bumpCounter_any_ne _ _ _ (fun h => hra h),
          countAddr_cons_ne _ _ _ hra]
    · rw [aggregateGo, if_neg hin]
      have hsub' : ∀ p ∈ dups,
          p.1 ∈ (agg ++ [Recipient.mk r.address r.lamports]).map (fun x => x.address) := by
        intro p hp
        rw [List.map_append]
        exact List.mem_append.mpr (Or.inl (hsub p hp))
      rw [ih _ _ hsub']
      by_cases hra : r.address = a
      · subst hra
        have hany : (agg.any fun x => decide (x.address = r.address)) = false := by
          simpa using hin
        have habs := dups_keys_absent r.address agg dups hsub hany
        have hanyApp : ((agg ++ [Recipient.mk r.address r.lamports]).any
            fun x => decide (x.address = r.address)) = true := by
          simp [List.any_append]
        rw [countAddr_cons_eq _ _ _ rfl, if_pos hanyApp, if_neg hin,
          habs.1, habs.2]
        simp only [List.map_nil, List.nil_append]
        by_cases hc : 1 ≤ countAddr r.address rest
        · rw [if_pos (show True ∧ 1 ≤ countAddr r.address rest
              from ⟨trivial, hc⟩),
            if_pos (show 2 ≤ countAddr r.address rest + 1 by omega)]
          simp
        · rw [if_neg (show ¬(True ∧ 1 ≤ countAddr r.address rest)
              from fun h => hc h.2),
            if_neg (show ¬(2 ≤ countAddr r.address rest + 1) by omega)]
      · rw [countAddr_cons_ne _ _ _ hra]
        have haeq : ((agg ++ [Recipient.mk r.address r.lamports]).any
            fun x => decide (x.address = a)) = (agg.any fun x => decide (x.address = a)) := by
          simp [List.any_append, hra]
        rw [haeq]

theorem aggregateGo_addresses (rest : List Recipient) :
    ∀ (agg : List Recipient) (dups : List (String × Nat)),
    (aggregateGo rest agg dups).1.map (fun r => r.address)
      = dedupFirstGo (rest.map (fun r => r.address))
          (agg.map (fun r => r.address)) := by
  induction rest with
  | nil => intro agg dups; rfl
  | cons r rest ih =>
    intro agg dups
    have hbridge : (agg.any fun x => decide (x.address = r.address))
        = ((agg.map (fun x => x.address)).any fun y => decide (y = r.address)) := by
      induction agg with
      | nil => rfl
      | cons z zs ihz => simp [List.any_cons, ihz]
    by_cases hin : agg.any (fun x => x.address = r.address)
    · rw [aggregateGo, if_pos hin, ih, addLamports_map_address]
      rw [List.map_cons, dedupFirstGo, if_pos (by rw [← hbridge]; exact hin)]
    · rw [aggregateGo, if_neg hin, ih]
      rw [List.map_cons, dedupFirstGo,
        if_neg (by rw [← hbridge]; simpa using hin), List.map_append]
      rfl

theorem addLamports_id_of_not_mem (agg : List Recipient) (a : String) (l : Nat)
    (h : ∀ r ∈ agg, ¬r.address = a) : addLamports agg a l = agg := by
  induction agg with
  | nil => rfl
  | cons x rest ih =>
    rw [addLamports, if_neg (h x (by simp)), ih (fun r hr => h r (by simp [hr]))]

theorem addLamports_sum (agg : List Recipient) (a : String) (l : Nat)
    (hnd : (agg.map (fun r => r.address)).Nodup)
    (hin : (agg.any fun r => decide (r.address = a)) = true) :
    sum_lamports (addLamports agg a l) = sum_lamports agg + l := by
  induction agg with
  | nil => simp at hin
  | cons x rest ih =>
    simp only [List.map_cons, List.nodup_cons] at hnd
    by_cases hx : x.address = a
    · have hnotin : ∀ y ∈ rest, ¬y.address = a := by
        intro y hy hya
        exact hnd.1 (List.mem_map.mpr ⟨y, hy, hya.trans hx.symm⟩)
      rw [addLamports, if_pos hx, addLamports_id_of_not_mem rest a l hnotin]
      simp [sum_lamports]
      omega
    · have hin' : (rest.any fun r => decide (r.address = a)) = true := by
        rcases List.any_eq_true.mp hin with ⟨y, hy, hya⟩
        rcases List.mem_cons.mp hy with rfl | hy'
        · exact absurd (of_decide_eq_true hya) hx
        · exact List.any_eq_true.mpr ⟨y, hy', hya⟩
      rw [addLamports, if_neg hx]
      simp only [sum_lamports, List.map_cons, List.sum_cons] at ih ⊢
      rw [ih hnd.2 hin']
      omega

theorem aggregateGo_nodup_addresses (rest : List Recipient) :
    ∀ (agg : List Recipient) (dups : List (String × Nat)),
    (agg.map (fun r => r.address)).Nodup →
    ((aggregateGo rest agg dups).1.map (fun r => r.address)).Nodup := by
  induction rest with
  | nil => intro agg dups h; simpa [aggregateGo] using h
  | cons r rest ih =>
    intro agg dups hnd
    by_cases hin : agg.any (fun x => x.address = r.address)
    · rw [aggregateGo, if_pos hin]
      exact ih _ _ (by rw [addLamports_map_address]; exact hnd)
    · rw [aggregateGo, if_neg hin]
      apply ih
      rw [List.map_append]
      simp only [List.map_cons, List.map_nil]
      rw [List.nodup_append]
      refine ⟨hnd, List.nodup_singleton _, ?_⟩
      intro x hx
      simp only [List.mem_singleton]
      intro hxr
      rcases List.mem_map.mp hx with ⟨y, hy, hya⟩
      have : (agg.any fun x => decide (x.address = r.address)) = true :=
        List.any_eq_true.mpr ⟨y, hy, by simp [hya, hxr]⟩
      exact hin this

theorem aggregateGo_sum (rest : List Recipient) :
    ∀ (agg : List Recipient) (dups : List (String × Nat)),
    (agg.map (fun r => r.address)).Nodup →
    sum_lamports (aggregateGo rest agg dups).1
      = sum_lamports agg + sum_lamports rest := by
  induction rest with
  | nil => intro agg dups _; simp [aggregateGo, sum_lamports]
  | cons r rest ih =>
    intro agg dups hnd
    by_cases hin : agg.any (fun x => x.address = r.address)
    · rw [aggregateGo, if_pos hin]
      rw [ih _ _ (by rw [addLamports_map_address]; exact hnd)]
      rw [addLamports_sum agg r.address r.lamports hnd hin]
      simp [sum_lamports]
      omega
    · rw [aggregateGo, if_neg hin]
      have hnd' : ((agg ++ [Recipient.mk r.address r.lamports]).map
          (fun r => r.address)).Nodup := by
        rw [List.map_append]
        simp only [List.map_cons, List.map_nil]
        rw [List.nodup_append]
        refine ⟨hnd, List.nodup_singleton _, ?_⟩
        intro x hx
        simp only [List.mem_singleton]
        intro hxr
        rcases List.mem_map.mp hx with ⟨y, hy, hya⟩
        exact hin (List.any_eq_true.mpr ⟨y, hy, by simp [hya, hxr]⟩)
      rw [ih _ _ hnd']
      simp [sum_lamports]
      omega

theorem duplicateWarnings_filter (d : List (String × Nat)) (a : String) :
    (duplicateWarnings d).filter (isDupWarningFor a)
      = (d.filter (fun p => p.1 = a)).map
          (fun p => Warning.duplicateAddress p.1 (p.2 + 1)) := by
  induction d with
  | nil => rfl
  | cons p rest ih =>
    simp only [duplicateWarnings, List.map_cons] at ih ⊢
    by_cases hp : p.1 = a <;>
      simp [List.filter_cons, isDupWarningFor, hp, ih]

/-! ## Claim theorems -/

/-- **C6**: in `read_recipients_from_file`, lines sharing an address are
merged into a single `Recipient` whose lamports are the sum of the
individual lines' converted amounts, and every address that occurs more
than once gets exactly one duplicate warning naming the address and its
total number of occurrences (addresses occurring once get none). -/
theorem aggregate_merges_duplicates (rs : List Recipient) (a : String)
    (h : a ∈ rs.map (fun r => r.address)) :
    (aggregateRecipients rs).1.filter (fun r => r.address = a)
        = [Recipient.mk a (sumAddr a rs)] ∧
    (duplicateWarnings (aggregateRecipients rs).2).filter (isDupWarningFor a)
        = (if 2 ≤ countAddr a rs
           then [Warning.duplicateAddress a (countAddr a rs)] else []) := by
  have hc : 1 ≤ countAddr a rs := by
    rcases List.mem_map.mp h with ⟨r, hr, hra⟩
    have hmem : r ∈ rs.filter (fun r => r.address = a) :=
      List.mem_filter.mpr ⟨hr, by simp [hra]⟩
    have hlen := List.length_pos.mpr (List.ne_nil_of_mem hmem)
    simpa [countAddr] using hlen
  constructor
  · have hA := aggregateGo_filter_addr a rs [] []
    rw [aggregateRecipients, hA]
    simp [hc]
  · have hB := aggregateGo_filter_dups a rs [] [] (by intro p hp; simp at hp)
    rw [aggregateRecipients, duplicateWarnings_filter, hB]
    simp only [List.any_nil, Bool.false_eq_true, if_false]
    by_cases h2 : 2 ≤ countAddr a rs
    · rw [if_pos h2, if_pos h2]
      simp only [List.map_cons, List.map_nil]
      congr 2
      omega
    · rw [if_neg h2, if_neg h2]
      rfl

/-- **C6 witness**: a file with `W1` appearing twice (1 and 2 whole
tokens) and `W2` once: `W1` aggregates to `3 × LAMPORTS_PER_SOL` with
exactly one duplicate warning reporting 2 occurrences. -/
theorem aggregate_merges_duplicates_witness :
    (aggregateRecipients
        [Recipient.mk "W1" 1000000000, Recipient.mk "W2" 5,
         Recipient.mk "W1" 2000000000]).1.filter (fun r => r.address = "W1")
      = [Recipient.mk "W1"
          (sumAddr "W1"
            [Recipient.mk "W1" 1000000000, Recipient.mk "W2" 5,
             Recipient.mk "W1" 2000000000])] ∧
    (duplicateWarnings (aggregateRecipients
        [Recipient.mk "W1" 1000000000, Recipient.mk "W2" 5,
         Recipient.mk "W1" 2000000000]).2).filter (isDupWarningFor "W1")
      = (if 2 ≤ countAddr "W1"
            [Recipient.mk "W1" 1000000000, Recipient.mk "W2" 5,
             Recipient.mk "W1" 2000000000]
         then [Warning.duplicateAddress "W1"
            (countAddr "W1"
              [Recipient.mk "W1" 1000000000, Recipient.mk "W2" 5,
               Recipient.mk "W1" 2000000000])] else []) :=
  aggregate_merges_duplicates
    [Recipient.mk "W1" 1000000000, Recipient.mk "W2" 5,
     Recipient.mk "W1" 2000000000] "W1" (by decide)

/-- **C10**: aggregation conserves the total base-unit amount
(`sum_lamports` of the aggregated set equals `sum_lamports` of the raw
parsed lines) and the aggregated recipients appear in first-occurrence
order of their addresses. -/
theorem aggregate_conserves_lamports_and_order (rs : List Recipient) :
    sum_lamports (aggregateRecipients rs).1 = sum_lamports rs ∧
    (aggregateRecipients rs).1.map (fun r => r.address)
      = dedupFirst (rs.map (fun r => r.address)) := by
  constructor
  · have h := aggregateGo_sum rs [] [] (by simp)
    rw [aggregateRecipients, h]
    simp [sum_lamports]
  · exact aggregateGo_addresses rs [] []

theorem sol_to_lamports_tiny :
    sol_to_lamports (mkRat 1 10000000000) = .error .tooSmallAmount := by
  have h2 : mkRat 1 10000000000 * ((LAMPORTS_PER_SOL : Nat) : ℚ) = mkRat 1 10 := by
    rw [Rat.mkRat_eq_div, Rat.mkRat_eq_div]
    norm_num [LAMPORTS_PER_SOL]
  unfold sol_to_lamports
  rw [if_neg (by decide), h2]
  decide

/-- **C4** (the claim fails on the code): a recipient line whose decimal
amount converts to zero base units makes `_sol_to_lamports` raise a
plain `ValueError`, which the per-line `except RecipientParseError`
handler of `read_recipients_from_file` does *not* catch (it is a
`ValueError`, not a `RecipientParseError`): the whole parse aborts
instead of recording a line warning and skipping the line.  At the
failing input — a single line `WalletUno 0.0000000001` with a valid
address — the parse returns the uncaught `ValueError`, producing neither
a warning nor a `Recipient`. -/
theorem read_recipients_zero_conversion_aborts :
    sol_to_lamports (mkRat 1 10000000000) = .error .tooSmallAmount ∧
    read_recipients_from_file demoValidAddr demoParseDecimal
      ["WalletUno 0.0000000001"] none
      = .error (.valueError .tooSmallAmount) := by
  refine ⟨sol_to_lamports_tiny, ?_⟩
  have hline : parse_recipient_line demoValidAddr demoParseDecimal
      "WalletUno 0.0000000001" 1 none
      = (match sol_to_lamports (mkRat 1 10000000000) with
         | .ok lamports => Except.ok (Recipient.mk "WalletUno" lamports)
         | .error v => Except.error (Sum.inr v)) := rfl
  rw [sol_to_lamports_tiny] at hline
  have hcollect : collectRecipientsGo demoValidAddr demoParseDecimal none
      ["WalletUno 0.0000000001"] 1 [] []
      = (match parse_recipient_line demoValidAddr demoParseDecimal
            "WalletUno 0.0000000001" 1 none with
         | .ok r => collectRecipientsGo demoValidAddr demoParseDecimal none [] 2 [r] []
         | .error (.inl e) => collectRecipientsGo demoValidAddr demoParseDecimal none
             [] 2 [] [.lineWarning e]
         | .error (.inr v) => Except.error v) := rfl
  rw [hline] at hcollect
  rw [read_recipients_from_file, hcollect]

/-- **C2 counterexample**: calling `set_rpc_pool` with a valid pool, a
valid `max_retries = 5` and an invalid `retry_backoff = -1` fails with
the backoff `ConfigurationError`, yet `max_retries_per_endpoint` has
already been mutated from 3 to 5 — the claim that *no* manager state is
mutated before rejection is false. -/
theorem set_rpc_pool_mutates_on_invalid_backoff :
    (set_rpc_pool demoState ["https://rpc.ankr.com/solana"] (some 5)
        (some (mkRat (-1) 1)) none).2 = some ConfigError.badRetryBackoff ∧
    (set_rpc_pool demoState ["https://rpc.ankr.com/solana"] (some 5)
        (some (mkRat (-1) 1)) none).1.maxRetriesPerEndpoint = 5 ∧
    demoState.maxRetriesPerEndpoint = 3 := by
  decide

/-- **C2 amended**: every invalid argument makes `set_rpc_pool` fail
with its `ConfigurationError` and leaves the endpoint list, active
index, endpoint, client, timeout and backoff untouched; however
`max_retries_per_endpoint` is already updated when a valid `max_retries`
argument is followed by an invalid `retry_backoff` — only in that case
is any state mutated before the rejection. -/
theorem set_rpc_pool_rejects_with_limited_mutation (st : ManagerState)
    (endpoints : List String) (mr : Option Int) (rb : Option ℚ)
    (tmo : Option ℚ) (e : ConfigError)
    (h : (set_rpc_pool st endpoints mr rb tmo).2 = some e) :
    (set_rpc_pool st endpoints mr rb tmo).1.rpcEndpoints = st.rpcEndpoints ∧
    (set_rpc_pool st endpoints mr rb tmo).1.currentEndpointIndex
        = st.currentEndpointIndex ∧
    (set_rpc_pool st endpoints mr rb tmo).1.endpoint = st.endpoint ∧
    (set_rpc_pool st endpoints mr rb tmo).1.clientEndpoint = st.clientEndpoint ∧
    (set_rpc_pool st endpoints mr rb tmo).1.clientTimeout = st.clientTimeout ∧
    (set_rpc_pool st endpoints mr rb tmo).1.timeout = st.timeout ∧
    (set_rpc_pool st endpoints mr rb tmo).1.retryBackoffSeconds
        = st.retryBackoffSeconds ∧
    ((set_rpc_pool st endpoints mr rb tmo).1.maxRetriesPerEndpoint
        = st.maxRetriesPerEndpoint ∨
      (e = .badRetryBackoff ∧ ∃ m, mr = some m ∧ 1 ≤ m ∧
        (set_rpc_pool st endpoints mr rb tmo).1.maxRetriesPerEndpoint = m)) := by
  unfold set_rpc_pool at h ⊢
  cases hclean : cleanEndpointsGo endpoints [] with
  | nil =>
    exact ⟨rfl, rfl, rfl, rfl, rfl, rfl, rfl, Or.inl rfl⟩
  | cons u us =>
    rw [hclean] at h
    dsimp only at h ⊢
    split at h
    next hmr =>
      rw [if_pos hmr]
      exact ⟨rfl, rfl, rfl, rfl, rfl, rfl, rfl, Or.inl rfl⟩
    next hmr =>
      rw [if_neg hmr]
      split at h
      next hrb =>
        rw [if_pos hrb]
        dsimp only at h
        have he : e = .badRetryBackoff := by
          cases h
          rfl
        cases mr with
        | none =>
          exact ⟨rfl, rfl, rfl, rfl, rfl, rfl, rfl, Or.inl rfl⟩
        | some m =>
          have hm1 : 1 ≤ m := by
            simp only [decide_eq_true_eq] at hmr
            omega
          exact ⟨rfl, rfl, rfl, rfl, rfl, rfl, rfl,
            Or.inr ⟨he, m, rfl, hm1, rfl⟩⟩
      next hrb =>
        dsimp only at h
        cases h

/-- **C2 amended, witness**: the amended theorem applied at the
counterexample input (`max_retries = 5` valid, `retry_backoff = -1`
invalid). -/
theorem set_rpc_pool_rejects_with_limited_mutation_witness :
    (set_rpc_pool demoState ["https://rpc.ankr.com/solana"] (some 5)
        (some (mkRat (-1) 1)) none).1.rpcEndpoints = demoState.rpcEndpoints ∧
    (set_rpc_pool demoState ["https://rpc.ankr.com/solana"] (some 5)
        (some (mkRat (-1) 1)) none).1.currentEndpointIndex
        = demoState.currentEndpointIndex ∧
    (set_rpc_pool demoState ["https://rpc.ankr.com/solana"] (some 5)
        (some (mkRat (-1) 1)) none).1.endpoint = demoState.endpoint ∧
    (set_rpc_pool demoState ["https://rpc.ankr.com/solana"] (some 5)
        (some (mkRat (-1) 1)) none).1.clientEndpoint = demoState.clientEndpoint ∧
    (set_rpc_pool demoState ["https://rpc.ankr.com/solana"] (some 5)
        (some (mkRat (-1) 1)) none).1.clientTimeout = demoState.clientTimeout ∧
    (set_rpc_pool demoState ["https://rpc.ankr.com/solana"] (some 5)
        (some (mkRat (-1) 1)) none).1.timeout = demoState.timeout ∧
    (set_rpc_pool demoState ["https://rpc.ankr.com/solana"] (some 5)
        (some (mkRat (-1) 1)) none).1.retryBackoffSeconds
        = demoState.retryBackoffSeconds ∧
    ((set_rpc_pool demoState ["https://rpc.ankr.com/solana"] (some 5)
        (some (mkRat (-1) 1)) none).1.maxRetriesPerEndpoint
        = demoState.maxRetriesPerEndpoint ∨
      (ConfigError.badRetryBackoff = .badRetryBackoff ∧ ∃ m, (some 5 : Option Int) = some m ∧ 1 ≤ m ∧
        (set_rpc_pool demoState ["https://rpc.ankr.com/solana"] (some 5)
            (some (mkRat (-1) 1)) none).1.maxRetriesPerEndpoint = m)) :=
  set_rpc_pool_rejects_with_limited_mutation demoState
    ["https://rpc.ankr.com/solana"] (some 5) (some (mkRat (-1) 1)) none
    ConfigError.badRetryBackoff (by decide)

/-- **C9**: whether the secret comes from a JSON array of byte values or
from a base-58 string, wallet loading succeeds exactly when the decoded
secret has 64 bytes (full secret key, `Keypair.from_bytes`) or 32 bytes
(seed, `Keypair.from_seed`); every other decoded length fails with the
`WalletLoadError` about the required 32/64-byte length. -/
theorem load_wallet_length_dispatch (secret_bytes : List Nat) :
    load_wallet_from_file (.jsonList secret_bytes)
        = keypair_from_bytes secret_bytes ∧
    load_wallet_from_file (.rawText (some secret_bytes))
        = keypair_from_bytes secret_bytes ∧
    (keypair_from_bytes secret_bytes = .ok .fromFullSecretKey
        ↔ secret_bytes.length = 64) ∧
    (keypair_from_bytes secret_bytes = .ok .fromSeed
        ↔ secret_bytes.length = 32) ∧
    (keypair_from_bytes secret_bytes = .error .badSecretLength
        ↔ (secret_bytes.length ≠ 64 ∧ secret_bytes.length ≠ 32)) := by
  refine ⟨rfl, rfl, ?_, ?_, ?_⟩ <;>
    by_cases h64 : secret_bytes.length = 64 <;>
    by_cases h32 : secret_bytes.length = 32 <;>
    simp [keypair_from_bytes, h64, h32] <;>
    omega

/-- **C3 counterexample**: with requested commitment `"finalized"` and a
poll status carrying no error, named level `"confirmed"` and no
confirmation count, `_await_confirmation` succeeds — although
`"confirmed"` is strictly below the requested `"finalized"` level (per
the spec's own at-or-above ordering) and the positive-confirmations
fallback does not apply.  The claim that the wait succeeds only at or
above the requested commitment is false: the code accepts any of
`"confirmed"`/`"finalized"` regardless of the request. -/
theorem await_confirmation_ignores_commitment :
    await_confirmation_step "finalized"
        (some ⟨none, some "confirmed", none⟩) = .confirmedOk ∧
    specLevelMeets "confirmed" "finalized" = false ∧
    confirmationsPositive (none : Option Int) = false := by
  decide

/-- **C3 amended**: when a status is present without an error field, the
poll succeeds exactly when the reported named confirmation level is
`"confirmed"` or `"finalized"` (case-insensitive) — *irrespective of the
commitment the caller requested* — or, as a fallback, when the
confirmation count is positive; the requested commitment never affects
the outcome of a poll. -/
theorem await_confirmation_step_spec (commitment other : String)
    (s : TxStatus) :
    await_confirmation_step commitment (some s)
        = await_confirmation_step other (some s) ∧
    (s.err = none →
      (await_confirmation_step commitment (some s) = .confirmedOk
        ↔ (namedLevelOk s.confirmation_status
            || confirmationsPositive s.confirmations) = true)) := by
  constructor
  · cases s with
    | mk err cs confs =>
      cases err <;> rfl
  · intro herr
    cases s with
    | mk err cs confs =>
      cases herr
      simp only [await_confirmation_step]
      by_cases hn : namedLevelOk cs <;>
        by_cases hc : confirmationsPositive confs <;>
        simp [hn, hc]

/-- **C3 amended, witness**: a status with no error, no named level and
`confirmations = 3` satisfies the fallback and the poll succeeds, for
the requested commitment `"finalized"` as for `"processed"`. -/
theorem await_confirmation_step_spec_witness :
    (await_confirmation_step "finalized"
        (some ⟨none, none, some 3⟩)
      = await_confirmation_step "processed"
        (some ⟨none, none, some 3⟩)) ∧
    ((⟨none, none, some 3⟩ : TxStatus).err = none →
      (await_confirmation_step "finalized"
          (some ⟨none, none, some 3⟩) = .confirmedOk
        ↔ (namedLevelOk (⟨none, none, some 3⟩ : TxStatus).confirmation_status
            || confirmationsPositive
                (⟨none, none, some 3⟩ : TxStatus).confirmations) = true)) :=
  await_confirmation_step_spec "finalized" "processed" ⟨none, none, some 3⟩

theorem next_index_eq (n R a : Nat) (hn : 1 ≤ n) (hR : 1 ≤ R) :
    (if 1 < n ∧ (a + 1) % R = 0
      then rotate_endpoint n ((a / R) % n) else (a / R) % n)
      = ((a + 1) / R) % n := by
  by_cases hmod : (a + 1) % R = 0
  · have hdiv : (a + 1) / R = a / R + 1 := by
      rw [Nat.succ_div, if_pos (Nat.dvd_of_mod_eq_zero hmod)]
    by_cases hn1 : 1 < n
    · rw [if_pos ⟨hn1, hmod⟩, rotate_endpoint, if_neg (by omega), hdiv]
      conv_rhs => rw [Nat.add_mod]
      rw [Nat.mod_eq_of_lt hn1]
    · have hone : n = 1 := by omega
      rw [if_neg (fun hc => hn1 hc.1), hone]
      simp [Nat.mod_one]
  · have hdiv : (a + 1) / R = a / R := by
      rw [Nat.succ_div,
        if_neg (fun hd => hmod (Nat.eq_zero_of_dvd_of_lt hd |> fun _ => by
          exact (Nat.mod_eq_zero_of_dvd hd)))]
      simp
    rw [if_neg (fun hc => hmod hc.2), hdiv]

theorem performGo_all_fail {ε α : Type} (err : Nat → ε) (n R : Nat) (b : ℚ)
    (hn : 1 ≤ n) (hR : 1 ≤ R) :
    ∀ (fuel a : Nat) (log : List AttemptRec),
    fuel + a = n * R →
    performGo (fun k => (Except.error (err k) : Except ε α)) n R b fuel a
        ((a / R) % n) (if a = 0 then none else some (err (a - 1))) log
      = (log ++ (List.range fuel).map
            (fun j => ⟨((a + j) / R) % n, b * ((min (a + j + 1) 4 : Nat) : ℚ)⟩),
         Except.error (some (err (n * R - 1)))) := by
  intro fuel
  induction fuel with
  | zero =>
    intro a log ha
    have hone : 1 ≤ n * R := Nat.mul_le_mul hn hR
    have hnz : ¬a = 0 := by omega
    have ha' : a = n * R := by omega
    rw [performGo, if_neg hnz, ha']
    simp
  | succ fuel ih =>
    intro a log ha
    rw [performGo]
    dsimp only
    rw [next_index_eq n R a hn hR]
    have h2 := ih (a + 1)
      (log ++ [⟨(a / R) % n, b * ((min (a + 1) 4 : Nat) : ℚ)⟩]) (by omega)
    rw [if_neg (Nat.succ_ne_zero a)] at h2
    simp only [Nat.add_sub_cancel] at h2
    rw [h2, List.append_assoc]
    congr 1
    rw [List.range_succ_eq_map]
    simp only [List.map_cons, List.map_map, Nat.add_zero, List.singleton_append]
    congr 1
    rw [List.cons_eq_cons]
    refine ⟨rfl, ?_⟩
    apply List.map_congr_left
    intro j _
    have hj : a + 1 + j = a + (j + 1) := by omega
    simp [Function.comp, hj]

/-- **C5**: with `n ≥ 1` pooled endpoints, `max_retries ≥ 1` retries per
endpoint and backoff `b`, an operation that fails on every attempt is
attempted exactly `n * max_retries` times; attempt `k` (0-based) runs
against endpoint index `(k / max_retries) % n` — i.e. the pool rotates
to the next endpoint, wrapping around, after every `max_retries`
consecutive attempts — each failure is followed by a sleep of
`b * min(attemptNumber, 4)` before the retry, and the call finally fails
with the exhausted-retries `RuntimeError` carrying the last underlying
error. -/
theorem perform_pool_rotation {ε α : Type} (err : Nat → ε) (n R : Nat)
    (b : ℚ) (hn : 1 ≤ n) (hR : 1 ≤ R) :
    (perform (fun k => (Except.error (err k) : Except ε α)) n R b).1.length
        = n * R ∧
    (∀ k, (hk : k <
        (perform (fun k => (Except.error (err k) : Except ε α)) n R b).1.length) →
      ((perform (fun k => (Except.error (err k) : Except ε α)) n R b).1.get
          ⟨k, hk⟩).endpointIndex = (k / R) % n ∧
      ((perform (fun k => (Except.error (err k) : Except ε α)) n R b).1.get
          ⟨k, hk⟩).sleepSeconds = b * ((min (k + 1) 4 : Nat) : ℚ)) ∧
    (perform (fun k => (Except.error (err k) : Except ε α)) n R b).2
        = Except.error (some (err (n * R - 1))) := by
  have h := @performGo_all_fail ε α err n R b hn hR (n * R) 0 [] (by omega)
  rw [show (if (0 : Nat) = 0 then (none : Option ε) else some (err (0 - 1)))
      = none from rfl] at h
  simp only [Nat.zero_div, Nat.zero_mod] at h
  rw [perform, h]
  refine ⟨by simp, ?_, rfl⟩
  intro k hk
  have hk' : k < n * R := by simpa using hk
  constructor
  · rw [List.get_eq_getElem]
    simp [hk']
  · rw [List.get_eq_getElem]
    simp [hk']

/-- **C5 witness**: the rotation theorem applied to a concrete pool of 2
endpoints with 3 retries each and backoff 1/2: six attempts, endpoints
`0,0,0,1,1,1`, capped-linear sleeps, final error carrying the last
underlying error. -/
theorem perform_pool_rotation_witness :
    (perform (fun k => (Except.error k : Except Nat Nat)) 2 3
        (mkRat 1 2)).1.length = 2 * 3 ∧
    (∀ k, (hk : k < (perform (fun k => (Except.error k : Except Nat Nat)) 2 3
        (mkRat 1 2)).1.length) →
      ((perform (fun k => (Except.error k : Except Nat Nat)) 2 3
          (mkRat 1 2)).1.get ⟨k, hk⟩).endpointIndex = (k / 3) % 2 ∧
      ((perform (fun k => (Except.error k : Except Nat Nat)) 2 3
          (mkRat 1 2)).1.get ⟨k, hk⟩).sleepSeconds
          = mkRat 1 2 * ((min (k + 1) 4 : Nat) : ℚ)) ∧
    (perform (fun k => (Except.error k : Except Nat Nat)) 2 3 (mkRat 1 2)).2
        = Except.error (some (2 * 3 - 1)) :=
  @perform_pool_rotation Nat Nat (fun k => k) 2 3 (mkRat 1 2)
    (by decide) (by decide)

theorem chunkListGo_join {α : Type} (size : Nat) (hs : 1 ≤ size) :
    ∀ (fuel : Nat) (l : List α), l.length ≤ fuel →
    (chunkListGo fuel l size).flatten = l := by
  intro fuel
  induction fuel with
  | zero =>
    intro l hl
    have : l = [] := List.eq_nil_of_length_eq_zero (by omega)
    subst this
    rfl
  | succ fuel ih =>
    intro l hl
    cases l with
    | nil => rfl
    | cons x rest =>
      rw [chunkListGo, if_neg (by omega), List.flatten_cons,
        ih _ (by simp only [List.length_drop, List.length_cons] at hl ⊢; omega)]
      exact List.take_append_drop size (x :: rest)

theorem chunkListGo_mem {α : Type} (size : Nat) (hs : 1 ≤ size) :
    ∀ (fuel : Nat) (l : List α), l.length ≤ fuel →
    ∀ c ∈ chunkListGo fuel l size, c.length ≤ size ∧ c ≠ [] := by
  intro fuel
  induction fuel with
  | zero =>
    intro l hl c hc
    have : l = [] := List.eq_nil_of_length_eq_zero (by omega)
    subst this
    simp [chunkListGo] at hc
  | succ fuel ih =>
    intro l hl c hc
    cases l with
    | nil => simp [chunkListGo] at hc
    | cons x rest =>
      rw [chunkListGo, if_neg (by omega)] at hc
      rcases List.mem_cons.mp hc with rfl | hc'
      · constructor
        · simp [List.length_take]
        · have : (x :: rest).take size = x :: rest.take (size - 1) := by
            cases size with
            | zero => omega
            | succ s => simp [List.take]
          simp [this]
      · exact ih _ (by simp only [List.length_drop, List.length_cons] at hl ⊢; omega)
          c hc'

theorem chunkList_join {α : Type} (l : List α) (size : Nat) (hs : 1 ≤ size) :
    (chunkList l size).flatten = l :=
  chunkListGo_join size hs l.length l le_rfl

theorem chunkList_mem {α : Type} (l : List α) (size : Nat) (hs : 1 ≤ size) :
    ∀ c ∈ chunkList l size, c.length ≤ size ∧ c ≠ [] :=
  chunkListGo_mem size hs l.length l le_rfl

theorem sendChunks_all_ok {ε : Type} (bh : Nat → Nat) (sig : Nat → String) :
    ∀ (chunks : List (List Recipient)) (i : Nat) (sigs : List String)
      (trace : List (List Recipient × Nat)),
    sendChunks (ε := ε)
        (fun j => ⟨Except.ok (bh j), Except.ok (sig j), fun _ => none⟩)
        chunks i sigs trace
      = (Except.ok (sigs ++ (List.range chunks.length).map (fun j => sig (i + j))),
         trace ++ List.zipWith (fun c j => (c, bh (i + j))) chunks
           (List.range chunks.length)) := by
  intro chunks
  induction chunks with
  | nil =>
    intro i sigs trace
    simp [sendChunks]
  | cons c cs ih =>
    intro i sigs trace
    rw [sendChunks]
    dsimp only
    rw [ih (i + 1) (sigs ++ [sig i]) (trace ++ [(c, bh i)])]
    rw [List.length_cons, List.range_succ_eq_map]
    refine congrArg₂ Prod.mk ?_ ?_
    · rw [List.map_cons, List.map_map, List.append_assoc,
        List.singleton_append]
      refine congrArg (fun t => Except.ok (sigs ++ t)) ?_
      rw [List.cons_eq_cons]
      refine ⟨by rw [Nat.add_zero], ?_⟩
      apply List.map_congr_left
      intro j _
      simp only [Function.comp]
      rw [show i + 1 + j = i + (j + 1) by omega]
    · rw [List.zipWith_cons_cons, List.append_assoc, List.singleton_append]
      refine congrArg (fun t => trace ++ t) ?_
      rw [List.cons_eq_cons]
      refine ⟨by rw [Nat.add_zero], ?_⟩
      rw [List.zipWith_map_right]
      have hfun : (fun (c' : List Recipient) (j : Nat) => (c', bh (i + 1 + j)))
          = (fun c' j => (c', bh (i + Nat.succ j))) := by
        funext c' j
        rw [show i + 1 + j = i + Nat.succ j by omega]
      rw [hfun]

/-- **C7**: `send_mass_payments` fails with the `InvalidArgument`
`ValueError` before building any transaction whenever the effective
batch size is below 1; otherwise (with the default batch size ≥ 1 as the
constructor guarantees) it partitions the recipients into consecutive
chunks of at most the effective batch size, in input order (their
concatenation is the recipient list), and on a run where every RPC call
succeeds it submits exactly one transaction per chunk, chunk `j` built
against the `j`-th freshly fetched blockhash — distinct blockhash
fetches are never shared between chunks. -/
theorem send_mass_payments_batches (db : Nat) (hdb : 1 ≤ db)
    (recipients : List Recipient) (mpt : Option Int)
    (bh : Nat → Nat) (sig : Nat → String) :
    (effectiveBatchSize mpt db < 1 →
      send_mass_payments (ε := String) true db
          (fun j => ⟨Except.ok (bh j), Except.ok (sig j), fun _ => none⟩)
          recipients mpt = (Except.error .invalidBatchSize, [])) ∧
    (1 ≤ effectiveBatchSize mpt db →
      (chunkList recipients (effectiveBatchSize mpt db).toNat).flatten
          = recipients ∧
      (∀ c ∈ chunkList recipients (effectiveBatchSize mpt db).toNat,
        c.length ≤ (effectiveBatchSize mpt db).toNat ∧ c ≠ []) ∧
      send_mass_payments (ε := String) true db
          (fun j => ⟨Except.ok (bh j), Except.ok (sig j), fun _ => none⟩)
          recipients mpt
        = (Except.ok ((List.range
              (chunkList recipients (effectiveBatchSize mpt db).toNat).length).map
                sig),
           List.zipWith (fun c j => (c, bh j))
             (chunkList recipients (effectiveBatchSize mpt db).toNat)
             (List.range
               (chunkList recipients (effectiveBatchSize mpt db).toNat).length))) := by
  constructor
  · intro hlt
    rw [send_mass_payments]
    rw [if_pos hlt]
  · intro hge
    have hs : 1 ≤ (effectiveBatchSize mpt db).toNat := by omega
    refine ⟨chunkList_join _ _ hs, chunkList_mem _ _ hs, ?_⟩
    rw [send_mass_payments]
    rw [if_neg (by omega), if_neg (by simp)]
    rw [sendChunks_all_ok bh sig _ 0 [] []]
    simp only [List.nil_append, Nat.zero_add]

/-- **C7 witness**: 25 recipients with `max_per_transaction = 10` (and
default 10) produce exactly the chunk sizes 10, 10, 5, and the batching
theorem instantiates at that input. -/
theorem send_mass_payments_batches_witness :
    ((chunkList (List.replicate 25 (Recipient.mk "r" 1)) 10).map
        List.length = [10, 10, 5]) ∧
    (effectiveBatchSize (some 10) 10 < 1 →
      send_mass_payments (ε := String) true 10
          (fun j => ⟨Except.ok j, Except.ok "sig", fun _ => none⟩)
          (List.replicate 25 (Recipient.mk "r" 1)) (some 10)
        = (Except.error .invalidBatchSize, [])) ∧
    (1 ≤ effectiveBatchSize (some 10) 10 →
      (chunkList (List.replicate 25 (Recipient.mk "r" 1))
          (effectiveBatchSize (some 10) 10).toNat).flatten
          = List.replicate 25 (Recipient.mk "r" 1) ∧
      (∀ c ∈ chunkList (List.replicate 25 (Recipient.mk "r" 1))
          (effectiveBatchSize (some 10) 10).toNat,
        c.length ≤ (effectiveBatchSize (some 10) 10).toNat ∧ c ≠ []) ∧
      send_mass_payments (ε := String) true 10
          (fun j => ⟨Except.ok j, Except.ok "sig", fun _ => none⟩)
          (List.replicate 25 (Recipient.mk "r" 1)) (some 10)
        = (Except.ok ((List.range
              (chunkList (List.replicate 25 (Recipient.mk "r" 1))
                (effectiveBatchSize (some 10) 10).toNat).length).map
                (fun _ => "sig")),
           List.zipWith (fun c j => (c, j))
             (chunkList (List.replicate 25 (Recipient.mk "r" 1))
               (effectiveBatchSize (some 10) 10).toNat)
             (List.range
               (chunkList (List.replicate 25 (Recipient.mk "r" 1))
                 (effectiveBatchSize (some 10) 10).toNat).length))) :=
  ⟨by decide,
   send_mass_payments_batches 10 (by decide)
     (List.replicate 25 (Recipient.mk "r" 1)) (some 10) (fun j => j)
     (fun _ => "sig")⟩

theorem sendChunks_error {ε : Type} (env : Nat → ChunkEnv ε) :
    ∀ (chunks : List (List Recipient)) (i : Nat) (sigs : List String)
      (trace tr' : List (List Recipient × Nat)) (e : MassPayError ε),
    sendChunks env chunks i sigs trace = (Except.error e, tr') →
    ∃ k, k < chunks.length ∧ chunkRun (env (i + k)) = Except.error e ∧
      ∃ t, tr' = trace ++ t ∧ t.length ≤ k + 1 := by
  intro chunks
  induction chunks with
  | nil =>
    intro i sigs trace tr' e h
    rw [sendChunks] at h
    exact absurd (congrArg Prod.fst h) (by simp)
  | cons c cs ih =>
    intro i sigs trace tr' e h
    rw [sendChunks] at h
    cases hbh : (env i).blockhash with
    | error eb =>
      rw [hbh] at h
      dsimp only at h
      rw [Prod.mk.injEq] at h
      refine ⟨0, by simp, ?_, [], by rw [← h.2, List.append_nil], by simp⟩
      rw [Nat.add_zero, chunkRun, hbh]
      dsimp only
      exact congrArg Except.error (Except.error.inj h.1)
    | ok bhv =>
      rw [hbh] at h
      dsimp only at h
      cases hsub : (env i).submit with
      | error es =>
        rw [hsub] at h
        dsimp only at h
        rw [Prod.mk.injEq] at h
        refine ⟨0, by simp, ?_, [(c, bhv)], by rw [← h.2], by simp⟩
        rw [Nat.add_zero, chunkRun, hbh]
        dsimp only
        rw [hsub]
        dsimp only
        exact congrArg Except.error (Except.error.inj h.1)
      | ok s =>
        rw [hsub] at h
        dsimp only at h
        cases hcf : (env i).confirm s with
        | some reason =>
          rw [hcf] at h
          dsimp only at h
          rw [Prod.mk.injEq] at h
          refine ⟨0, by simp, ?_, [(c, bhv)], by rw [← h.2], by simp⟩
          rw [Nat.add_zero, chunkRun, hbh]
          dsimp only
          rw [hsub]
          dsimp only
          rw [hcf]
          dsimp only
          exact congrArg Except.error (Except.error.inj h.1)
        | none =>
          rw [hcf] at h
          dsimp only at h
          rcases ih (i + 1) (sigs ++ [s]) (trace ++ [(c, bhv)]) tr' e h with
            ⟨k, hk, hrun, t, htr, hlen⟩
          refine ⟨k + 1, by simp only [List.length_cons]; omega, ?_,
            (c, bhv) :: t, ?_, by simp only [List.length_cons]; omega⟩
          · rw [show i + (k + 1) = i + 1 + k by omega]
            exact hrun
          · rw [htr, List.append_assoc, List.singleton_append]

/-- **C1 amended**: when `send_mass_payments` fails, either the batch
size or wallet precondition failed before any chunk was sent, or some
chunk `k` failed and the raised error is exactly that chunk's own error
(the exhausted-retries error of its blockhash fetch or submission, or
the confirmation error naming only that chunk's signature); all chunks
after `k` are aborted (at most `k + 1` transactions were ever built).
The signatures of the already-confirmed chunks are *not* part of the
error payload — they are delivered only when every chunk succeeds. -/
theorem send_mass_payments_abort {ε : Type} (walletLoaded : Bool)
    (db : Nat) (env : Nat → ChunkEnv ε) (recipients : List Recipient)
    (mpt : Option Int) (e : MassPayError ε)
    (tr' : List (List Recipient × Nat))
    (h : send_mass_payments walletLoaded db env recipients mpt
        = (Except.error e, tr')) :
    (e = .invalidBatchSize ∧ tr' = []) ∨
    (e = .walletNotLoaded ∧ tr' = []) ∨
    (∃ k, k < (chunkList recipients
        (effectiveBatchSize mpt db).toNat).length ∧
      chunkRun (env k) = Except.error e ∧ tr'.length ≤ k + 1) := by
  rw [send_mass_payments] at h
  by_cases hlt : effectiveBatchSize mpt db < 1
  · rw [if_pos hlt, Prod.mk.injEq] at h
    exact Or.inl ⟨(Except.error.inj h.1).symm, h.2.symm⟩
  · rw [if_neg hlt] at h
    by_cases hw : walletLoaded = true
    · rw [if_neg (by simp [hw])] at h
      rcases sendChunks_error env _ 0 [] [] tr' e h with
        ⟨k, hk, hrun, t, htr, hlen⟩
      refine Or.inr (Or.inr ⟨k, hk, by simpa using hrun, ?_⟩)
      rw [htr]
      simpa using hlen
    · rw [if_pos (by simpa using hw), Prod.mk.injEq] at h
      exact Or.inr (Or.inl ⟨(Except.error.inj h.1).symm, h.2.symm⟩)

/-- **C1 counterexample**: three single-recipient chunks where chunk 0
confirms as `s1` and chunk 1 fails confirmation.  The call fails with an
error naming only chunk 1's signature (`confirmFailed "s2" "boom"`) and
chunk 2 is aborted (only two transactions were built); re-running the
identical scenario with chunk 0 confirmed under a *different* signature
(`x9`) yields the *identical* error payload, so the payload does not
deliver the confirmed chunk's signature and the caller cannot tell from
it which chunks succeeded — the claim is false. -/
theorem send_mass_payments_error_drops_signatures :
    send_mass_payments true 10 demoEnvA
        [Recipient.mk "A" 1, Recipient.mk "B" 2, Recipient.mk "C" 3] (some 1)
      = (Except.error (.confirmFailed "s2" "boom"),
         [([Recipient.mk "A" 1], 10), ([Recipient.mk "B" 2], 11)]) ∧
    send_mass_payments true 10 demoEnvB
        [Recipient.mk "A" 1, Recipient.mk "B" 2, Recipient.mk "C" 3] (some 1)
      = (Except.error (.confirmFailed "s2" "boom"),
         [([Recipient.mk "A" 1], 10), ([Recipient.mk "B" 2], 11)]) := by
  decide

/-- **C1 amended, witness**: the abort theorem applied to the
`demoEnvA` scenario. -/
theorem send_mass_payments_abort_witness :
    ((MassPayError.confirmFailed "s2" "boom" : MassPayError String)
        = .invalidBatchSize ∧
      ([([Recipient.mk "A" 1], 10), ([Recipient.mk "B" 2], 11)]
        : List (List Recipient × Nat)) = []) ∨
    ((MassPayError.confirmFailed "s2" "boom" : MassPayError String)
        = .walletNotLoaded ∧
      ([([Recipient.mk "A" 1], 10), ([Recipient.mk "B" 2], 11)]
        : List (List Recipient × Nat)) = []) ∨
    (∃ k, k < (chunkList
        [Recipient.mk "A" 1, Recipient.mk "B" 2, Recipient.mk "C" 3]
        (effectiveBatchSize (some 1) 10).toNat).length ∧
      chunkRun (demoEnvA k)
          = Except.error (.confirmFailed "s2" "boom") ∧
      ([([Recipient.mk "A" 1], 10), ([Recipient.mk "B" 2], 11)]
        : List (List Recipient × Nat)).length ≤ k + 1) :=
  send_mass_payments_abort true 10 demoEnvA
    [Recipient.mk "A" 1, Recipient.mk "B" 2, Recipient.mk "C" 3] (some 1)
    (.confirmFailed "s2" "boom")
    [([Recipient.mk "A" 1], 10), ([Recipient.mk "B" 2], 11)] (by decide)

theorem dictGet?_cons_ne (p : String × ℚ) (d : List (String × ℚ))
    (a : String) (h : ¬p.1 = a) : dictGet? (p :: d) a = dictGet? d a := by
  rw [dictGet?, dictGet?, List.find?_cons_of_neg]
  simpa using h

theorem dictGet?_dictSet (d : List (String × ℚ)) (k : String) (v : ℚ)
    (a : String) :
    dictGet? (dictSet d k v) a = if a = k then some v else dictGet? d a := by
  induction d with
  | nil =>
    by_cases hak : a = k
    · simp [dictSet, dictGet?, List.find?, hak]
    · have hka : ¬(k = a) := fun h => hak h.symm
      simp [dictSet, dictGet?, List.find?, hak, hka]
  | cons p rest ih =>
    rw [dictSet]
    by_cases hpk : p.1 = k
    · rw [if_pos hpk]
      by_cases hak : a = k
      · simp [dictGet?, List.find?, hak]
      · have hka : ¬(k = a) := fun h => hak h.symm
        have hpa : ¬(p.1 = a) := by rw [hpk]; exact hka
        simp [dictGet?, List.find?, hak, hka, hpa]
    · rw [if_neg hpk]
      by_cases hpa : p.1 = a
      · have hak : ¬(a = k) := by rw [← hpa]; exact fun h => hpk h
        simp [dictGet?, List.find?, hpa, hak]
      · rw [dictGet?_cons_ne p _ a hpa, ih]
        by_cases hak : a = k
        · rw [if_pos hak, if_pos hak]
        · rw [if_neg hak, if_neg hak, dictGet?_cons_ne p rest a hpa]

theorem dictGet?_foldl_set (g : String → ℚ) :
    ∀ (xs : List String) (d : List (String × ℚ)) (a : String),
    dictGet? (xs.foldl (fun acc x => dictSet acc x (g x)) d) a
      = if a ∈ xs then some (g a) else dictGet? d a := by
  intro xs
  induction xs with
  | nil => intro d a; simp
  | cons x rest ih =>
    intro d a
    rw [List.foldl_cons, ih]
    by_cases hmem : a ∈ rest
    · rw [if_pos hmem, if_pos (List.mem_cons.mpr (Or.inr hmem))]
    · rw [if_neg hmem, dictGet?_dictSet]
      by_cases hax : a = x
      · rw [if_pos hax, if_pos (List.mem_cons.mpr (Or.inl hax)), hax]
      · rw [if_neg hax,
          if_neg (fun h => (List.mem_cons.mp h).elim hax hmem)]

theorem foldl_pages (f : List (String × ℚ) → String → List (String × ℚ)) :
    ∀ (pages : List (List String)) (init : List (String × ℚ)),
    pages.foldl (fun acc page => page.foldl f acc) init
      = pages.flatten.foldl f init := by
  intro pages
  induction pages with
  | nil => intro init; rfl
  | cons p ps ih =>
    intro init
    rw [List.foldl_cons, List.flatten_cons, List.foldl_append, ih]

theorem mem_dedupFirstGo :
    ∀ (xs acc : List String) (a : String),
    a ∈ dedupFirstGo xs acc ↔ a ∈ acc ∨ a ∈ xs := by
  intro xs
  induction xs with
  | nil => intro acc a; simp [dedupFirstGo]
  | cons x rest ih =>
    intro acc a
    rw [dedupFirstGo]
    by_cases hx : acc.any (fun y => y = x)
    · rw [if_pos hx, ih]
      have hxacc : x ∈ acc := by
        rcases List.any_eq_true.mp hx with ⟨y, hy, hyx⟩
        have : y = x := by simpa using hyx
        exact this ▸ hy
      constructor
      · rintro (h | h)
        · exact Or.inl h
        · exact Or.inr (List.mem_cons.mpr (Or.inr h))
      · rintro (h | h)
        · exact Or.inl h
        · rcases List.mem_cons.mp h with rfl | h'
          · exact Or.inl hxacc
          · exact Or.inr h'
    · rw [if_neg hx, ih]
      simp only [List.mem_append, List.mem_singleton, List.mem_cons,
        List.not_mem_nil, or_false]
      tauto

/-- **C8**: `fetch_balances` returns a dict in which every input address
(duplicates included) is present as a key; each maps to the looked-up
value — `lamports / LAMPORTS_PER_SOL` for ledger-known accounts and `0`
for missing/unfunded ones, duplicates trivially to the same value since
the value is a function of the address; and the unique addresses are
queried in consecutive `get_multiple_accounts` pages of at most the
configured page size. -/
theorem fetch_balances_complete (ledger : String → Option Nat)
    (pageSize : Nat) (hs : 1 ≤ pageSize) (addresses : List String) :
    (∀ a ∈ addresses,
      dictGet? (fetch_balances ledger pageSize addresses).1 a
        = some (balValue ledger a)) ∧
    (∀ a ∈ addresses, ledger a = none →
      dictGet? (fetch_balances ledger pageSize addresses).1 a = some 0) ∧
    (fetch_balances ledger pageSize addresses).2
        = chunkList (dedupFirst addresses) pageSize ∧
    (∀ p ∈ (fetch_balances ledger pageSize addresses).2,
      p.length ≤ pageSize ∧ p ≠ []) := by
  have hmain : ∀ a ∈ addresses,
      dictGet? (fetch_balances ledger pageSize addresses).1 a
        = some (balValue ledger a) := by
    intro a ha
    have hne : ¬addresses.isEmpty := by
      cases addresses with
      | nil => simp at ha
      | cons x rest => simp [List.isEmpty]
    rw [fetch_balances, if_neg hne]
    dsimp only
    rw [foldl_pages, chunkList_join _ _ hs]
    rw [dictGet?_foldl_set
      (fun x => (dictGet? ((dedupFirst addresses).foldl
        (fun acc2 x => dictSet acc2 x (balValue ledger x)) []) x).getD 0)
      addresses [] a, if_pos ha]
    rw [dictGet?_foldl_set (fun x => balValue ledger x) (dedupFirst addresses) [] a]
    have hmem : a ∈ dedupFirst addresses :=
      (mem_dedupFirstGo addresses [] a).mpr (Or.inr ha)
    rw [if_pos hmem]
    rfl
  refine ⟨hmain, ?_, ?_, ?_⟩
  · intro a ha hnone
    have := hmain a ha
    rwa [show balValue ledger a = 0 by rw [balValue, hnone]] at this
  · by_cases hne : addresses.isEmpty
    · have : addresses = [] := by
        cases addresses with
        | nil => rfl
        | cons x rest => simp [List.isEmpty] at hne
      subst this
      rfl
    · rw [fetch_balances, if_neg hne]
  · intro p hp
    have h2 : (fetch_balances ledger pageSize addresses).2
        = chunkList (dedupFirst addresses) pageSize := by
      by_cases hne : addresses.isEmpty
      · have : addresses = [] := by
          cases addresses with
          | nil => rfl
          | cons x rest => simp [List.isEmpty] at hne
        subst this
        rfl
      · rw [fetch_balances, if_neg hne]
    rw [h2] at hp
    exact chunkList_mem _ _ hs p hp

/-- **C8 witness**: the completeness theorem applied to the input
`[A, B, A]` (a duplicated address) with page size 2 and a ledger in
which `A` holds 5 lamports and `B` is missing. -/
theorem fetch_balances_complete_witness :
    (∀ a ∈ ["A", "B", "A"],
      dictGet? (fetch_balances
          (fun x => if x = "A" then some 5 else none) 2 ["A", "B", "A"]).1 a
        = some (balValue (fun x => if x = "A" then some 5 else none) a)) ∧
    (∀ a ∈ ["A", "B", "A"],
      (fun x => if x = "A" then some 5 else none) a = none →
      dictGet? (fetch_balances
          (fun x => if x = "A" then some 5 else none) 2 ["A", "B", "A"]).1 a
        = some 0) ∧
    (fetch_balances (fun x => if x = "A" then some 5 else none) 2
        ["A", "B", "A"]).2
        = chunkList (dedupFirst ["A", "B", "A"]) 2 ∧
    (∀ p ∈ (fetch_balances (fun x => if x = "A" then some 5 else none) 2
        ["A", "B", "A"]).2,
      p.length ≤ 2 ∧ p ≠ []) :=
  fetch_balances_complete (fun x => if x = "A" then some 5 else none) 2
    (by decide) ["A", "B", "A"]

end SolanaManager
